import Mathlib

/-!
# Verification of the Blackjack and Golf-Solitaire rule engines

Shallow embedding of `src/Blackjack/blackjack.py` and
`src/Solitaire/solitaire.py`.  Pure game logic (hand scoring, the round
state machine, tableau/waste/stock operations) is translated into
executable Lean definitions; the external collaborators (network deck,
console view) are abstracted as explicit input sequences: the deck is a
list of cards consumed in draw order, and the player's HIT/STAND answers
are a list of booleans (`true` = "H").
-/

namespace Blackjack

/-- Card face values, as the keys of the `card_values` dict in
`Hand.add_card` (`"2"` .. `"10"`, `"JACK"`, `"QUEEN"`, `"KING"`, `"ACE"`). -/
inductive CardValue where
  | two | three | four | five | six | seven | eight | nine | ten
  | jack | queen | king | ace
deriving DecidableEq, Repr

/-- A card as in `blackjack.py`: value, suit and code (suit and code are
display-only strings; they never influence the rules). -/
structure Card where
  value : CardValue
  suit : String
  code : String
deriving DecidableEq, Repr

/-- The `card_values` dict of `Hand.add_card`: 2–10 map to face value,
JACK/QUEEN/KING to 10, ACE to 11. -/
def cardValues : CardValue → Nat
  | .two => 2 | .three => 3 | .four => 4 | .five => 5 | .six => 6
  | .seven => 7 | .eight => 8 | .nine => 9 | .ten => 10
  | .jack => 10 | .queen => 10 | .king => 10 | .ace => 11

/-- A hand: cards, running score, and the number of aces still counted
as 11 (`self.score`, `self.cards`, `self.aces`). -/
structure Hand where
  score : Nat
  cards : List Card
  aces : Nat
deriving DecidableEq, Repr

/-- `Hand.__init__`: empty hand, score 0, no aces. -/
def Hand.init : Hand := { score := 0, cards := [], aces := 0 }

/-- The `while self.score > 21 and self.aces > 0: self.score -= 10;
self.aces -= 1` loop of `Hand.add_card`.  Recursion on the ace count,
which strictly decreases on every iteration of the Python loop. -/
def soften : Nat → Nat → Nat × Nat
  | score, 0 => (score, 0)
  | score, aces + 1 =>
    if score > 21 then soften (score - 10) aces else (score, aces + 1)

/-- `Hand.add_card`: count the ace, add the card value to the score,
append the card, then run the softening loop. -/
def Hand.addCard (h : Hand) (c : Card) : Hand :=
  let aces := if c.value = CardValue.ace then h.aces + 1 else h.aces
  let raw := h.score + cardValues c.value
  let res := soften raw aces
  { score := res.1, cards := h.cards ++ [c], aces := res.2 }

/-- The hand obtained by adding a list of cards in order to the empty
hand (an arbitrary sequence of `add_card` calls on a fresh `Hand`). -/
def Hand.ofCards (cs : List Card) : Hand := cs.foldl Hand.addCard Hand.init

/-- The verdict the controller reports through the view:
`view.player_won` or `view.player_lost`. -/
inductive Verdict where
  | won | lost
deriving DecidableEq, Repr

/-- Result of a round of `BlackjackController.__init__`: the verdict
reported to the view (`none` when the controller returns without
calling `player_won`/`player_lost`, the fall-through after the final
comparison) and the two hands at that point. -/
structure RoundResult where
  verdict : Option Verdict
  player : Hand
  dealer : Hand
deriving DecidableEq, Repr

/-- `BlackjackController.player_moves`:
`while self.player_hand.score < 21 and view.ask_next_move(...) == "H":
self.player_hand.add_card(deck.draw())`.
The view's answers are the list `asks` (`true` = "H", `false` = "S"),
consumed one per loop test; the deck is consumed from the front.
Returns `none` when the run cannot complete (the deck or the answer
stream is exhausted while the loop still needs a draw or an answer),
otherwise the final hand and the remaining deck. -/
def playerMoves (h : Hand) (deck : List Card) : List Bool → Option (Hand × List Card)
  | [] => if h.score < 21 then none else some (h, deck)
  | a :: asks =>
    if h.score < 21 then
      if a then
        match deck with
        | [] => none
        | c :: deck => playerMoves (h.addCard c) deck asks
      else some (h, deck)
    else some (h, deck)

/-- `BlackjackController.dealer_moves`:
`while self.dealer_hand.score < self.player_hand.score:
self.dealer_hand.add_card(deck.draw())`.
Returns `none` when the deck is exhausted while the loop still wants a
draw, otherwise the dealer hand at loop exit and the remaining deck. -/
def dealerMoves (pscore : Nat) (d : Hand) : List Card → Option (Hand × List Card)
  | [] => if d.score < pscore then none else some (d, [])
  | c :: deck =>
    if d.score < pscore then dealerMoves pscore (d.addCard c) deck
    else some (d, c :: deck)

/-- The tail of `BlackjackController.__init__` from the `dealer_moves`
call on: run the dealer draw loop, then report `player_won` if the
dealer's score exceeds 22, `player_lost` if it exceeds the player's
score, and nothing otherwise. -/
def dealerPhase (p d : Hand) (deck : List Card) : Option RoundResult :=
  match dealerMoves p.score d deck with
  | none => none
  | some (d, _) =>
    if d.score > 22 then some ⟨some .won, p, d⟩
    else if d.score > p.score then some ⟨some .lost, p, d⟩
    else some ⟨none, p, d⟩

/-- The part of `BlackjackController.__init__` that follows the
`player_moves` call: the `score == 21` re-check, the
bust / dealer-blackjack check, then the dealer phase.  `p` is the
player's hand after the player turn, `d` the dealer's two-card hand. -/
def postPlayerPhase (p d : Hand) (deck : List Card) : Option RoundResult :=
  if p.score = 21 then some ⟨some .won, p, d⟩
  else if p.score > 21 ∨ d.score = 21 then some ⟨some .lost, p, d⟩
  else dealerPhase p d deck

/-- `BlackjackController.__init__` as a function of the draw order of
the (already shuffled) deck and of the view's HIT/STAND answers.
`draw_first_cards` deals player, dealer, player, dealer; then the
immediate-blackjack check, the player turn, and the rest of the round.
`none` means the run cannot complete in this model (not enough cards or
answers). -/
def runRound (deck : List Card) (asks : List Bool) : Option RoundResult :=
  match deck with
  | c0 :: c1 :: c2 :: c3 :: deck =>
    let p := (Hand.init.addCard c0).addCard c2
    let d := (Hand.init.addCard c1).addCard c3
    if p.score = 21 then some ⟨some .won, p, d⟩
    else
      match playerMoves p deck asks with
      | none => none
      | some (p, deck) => postPlayerPhase p d deck
  | _ => none

end Blackjack

namespace Golf

/-- Modelled from the spec: the `cards` module imported by
`solitaire.py` (`from cards import Deck`) is not part of the sources.
Per the spec, a card has a numeric rank with Ace adjacent only to 2 and
King adjacent only to Queen, so ranks are encoded 1 (Ace) … 13 (King);
the suit is an opaque tag that never influences the rules.  Equality is
structural (a full deck holds 52 distinct cards). -/
structure Card where
  rank : Nat
  suit : Nat
deriving DecidableEq, Repr

/-- Modelled from the spec: Ace maps to rank 1 (adjacent only to 2). -/
def aceRank : Nat := 1

/-- Modelled from the spec: Queen maps to rank 12. -/
def queenRank : Nat := 12

/-- Modelled from the spec: King maps to rank 13 (adjacent only to
Queen). -/
def kingRank : Nat := 13

/-- The `Solitaire` class state: `self.tableau` (a list of columns),
`self.waste` and `self.stock`. -/
structure Solitaire where
  tableau : List (List Card)
  waste : List Card
  stock : List Card
deriving DecidableEq, Repr

/-- Class attribute `Solitaire.columns = 7`. -/
def columns : Nat := 7

/-- Class attribute `Solitaire.cards_in_column = 1`. -/
def cardsInColumn : Nat := 1

/-- The tableau-dealing loops of `Solitaire.__init__`: `n` columns of
`cic` cards each, dealt column by column from the front of the deck;
returns the columns and the undealt remainder of the deck. -/
def dealColumns : Nat → Nat → List Card → List (List Card) × List Card
  | 0, _, deck => ([], deck)
  | n + 1, cic, deck =>
    let res := dealColumns n cic (deck.drop cic)
    (deck.take cic :: res.1, res.2)

/-- `Solitaire.__init__` as a function of the shuffled 52-card deck
(cards dealt from the front): deal `columns × cards_in_column` cards
into the tableau, one card to the waste, and
`51 - columns * cards_in_column` cards to the stock. -/
def setup (deck : List Card) : Solitaire :=
  let res := dealColumns columns cardsInColumn deck
  { tableau := res.1,
    waste := res.2.take 1,
    stock := (res.2.drop 1).take (51 - columns * cardsInColumn) }

/-- `Solitaire.can_move`: some column is non-empty, its last card is
the given card, and its rank differs from the rank of the topmost waste
card by exactly 1.  (When the waste is empty Python would raise an
`IndexError` on `self.waste[-1]` at a matching column; the claim-C10
invariant shows the waste is never empty in reachable states.) -/
def canMove (s : Solitaire) (c : Card) : Bool :=
  s.tableau.any fun column =>
    match column.getLast?, s.waste.getLast? with
    | some x, some w => x == c && ((w.rank : Int) - (c.rank : Int)).natAbs == 1
    | _, _ => false

/-- `Solitaire.move_card`: append the last card of column `col` to the
waste and delete it from the column.  Python raises `IndexError` when
the index is out of range or the column is empty; this is `none`. -/
def moveCard (s : Solitaire) (col : Nat) : Option Solitaire :=
  match s.tableau.get? col with
  | none => none
  | some column =>
    match column.getLast? with
    | none => none
    | some c =>
      some { tableau := s.tableau.set col column.dropLast,
             waste := s.waste ++ [c],
             stock := s.stock }

/-- `Solitaire.deal_from_stock`: if the stock is non-empty, move its
last card onto the waste; otherwise do nothing. -/
def dealFromStock (s : Solitaire) : Solitaire :=
  match s.stock.getLast? with
  | none => s
  | some c =>
    { tableau := s.tableau, waste := s.waste ++ [c], stock := s.stock.dropLast }

/-- `Solitaire.has_won`: every column is empty. -/
def hasWon (s : Solitaire) : Bool :=
  s.tableau.all fun column => column.isEmpty

/-- `Solitaire.has_lost` as written: when the stock is empty it returns
`True`/`False` (no column's exposed card is movable / some is); when
the stock is non-empty the function falls through and returns Python
`None`, here `Option.none`. -/
def hasLostPy (s : Solitaire) : Option Bool :=
  if s.stock.isEmpty then
    some (s.tableau.all fun column =>
      match column.getLast? with
      | some c => !(canMove s c)
      | none => true)
  else none

/-- The truth value of `has_lost()` as the game loop consumes it
(`elif self.has_lost():`): Python `None` is falsy. -/
def hasLost (s : Solitaire) : Bool := (hasLostPy s).getD false

/-- Total number of cards across the three containers. -/
def totalCards (s : Solitaire) : Nat :=
  (s.tableau.map List.length).sum + s.waste.length + s.stock.length

/-- States reachable from setup on a full 52-card deck by the mutating
operations of the engine (`move_card`, `deal_from_stock`; `can_move`,
`has_won` and `has_lost` do not mutate the state). -/
inductive Reachable : Solitaire → Prop
  | initial (deck : List Card) (h : deck.length = 52) : Reachable (setup deck)
  | move (s : Solitaire) (i : Nat) (t : Solitaire) :
      Reachable s → moveCard s i = some t → Reachable t
  | deal (s : Solitaire) : Reachable s → Reachable (dealFromStock s)

/-- A concrete 52-card deck (4 suits × 13 ranks) used by witnesses. -/
def deck52 : List Card := (List.range 52).map fun i => ⟨i % 13 + 1, i / 13⟩

/-- Waste top of rank 7 with exposed column cards of ranks 6, 8, 2
(spec's `can_move` example). -/
def exampleState7 : Solitaire :=
  { tableau := [[⟨6, 0⟩], [⟨8, 1⟩], [⟨2, 2⟩]], waste := [⟨7, 0⟩], stock := [] }

/-- Waste top King, exposed Ace (wraparound would make this movable). -/
def exampleStateAK : Solitaire :=
  { tableau := [[⟨aceRank, 0⟩]], waste := [⟨kingRank, 0⟩], stock := [] }

/-- Waste top of rank 2, exposed Ace. -/
def exampleStateA2 : Solitaire :=
  { tableau := [[⟨aceRank, 0⟩]], waste := [⟨2, 0⟩], stock := [] }

/-- Waste top Queen, exposed King. -/
def exampleStateKQ : Solitaire :=
  { tableau := [[⟨kingRank, 0⟩]], waste := [⟨queenRank, 0⟩], stock := [] }

/-- A state with a non-empty stock where no exposed card is movable
(the only exposed card has rank 2 against a waste top of rank 7). -/
def exampleStateStuck : Solitaire :=
  { tableau := [[⟨2, 0⟩]], waste := [⟨7, 0⟩], stock := [⟨5, 0⟩] }

end Golf

namespace Blackjack

theorem soften_spec (score aces : Nat) :
    (soften score aces).1 ≤ 21 ∨ (soften score aces).2 = 0 := by
  induction aces generalizing score with
  | zero => right; rfl
  | succ a ih =>
    unfold soften
    by_cases h : score > 21
    · simpa [h] using ih (score - 10)
    · simp [h]; omega

/-- **C1.** After any `add_card`, the hand's score is at most 21 or no
ace is still counted as 11: the softening loop of `add_card` runs until
`score ≤ 21` or `aces = 0`.  This holds for every hand (in particular
for every hand built by a sequence of `add_card` calls). -/
theorem addCard_soft_ace_invariant (h : Hand) (c : Card) :
    (h.addCard c).score ≤ 21 ∨ (h.addCard c).aces = 0 := by
  unfold Hand.addCard
  exact soften_spec _ _

/-- **C3.** Whenever the dealer's draw loop completes and the round
continues (`dealerPhase` returns a result), the verdict is `won`
exactly when the dealer's final score is strictly greater than 22; in
particular a dealer score of exactly 22 is not a bust. -/
theorem dealerPhase_won_iff_gt22 (p d : Hand) (deck : List Card) (r : RoundResult)
    (h : dealerPhase p d deck = some r) :
    r.verdict = some Verdict.won ↔ 22 < r.dealer.score := by
  unfold dealerPhase at h
  cases hdm : dealerMoves p.score d deck with
  | none => rw [hdm] at h; exact absurd h (by simp)
  | some res =>
    obtain ⟨d', rest⟩ := res
    rw [hdm] at h
    by_cases h22 : d'.score > 22
    · simp only [h22, if_pos, Option.some_inj] at h
      subst h
      simpa using h22
    · simp only [h22, if_neg, if_false] at h
      by_cases hgt : d'.score > p.score
      · simp only [hgt, if_pos, Option.some_inj] at h
        subst h
        simp
        omega
      · simp only [hgt, if_neg, if_false, Option.some_inj] at h
        subst h
        simp
        omega

/-- A concrete run for `dealerPhase_won_iff_gt22`: the dealer stops at
exactly 22 and the verdict is `lost`, not `won` (22 is not a bust). -/
theorem dealerPhase_won_iff_gt22_witness :
    ((⟨some Verdict.lost, ⟨20, [], 0⟩, ⟨22, [], 0⟩⟩ : RoundResult).verdict
        = some Verdict.won) ↔
      22 < (⟨some Verdict.lost, ⟨20, [], 0⟩, ⟨22, [], 0⟩⟩ : RoundResult).dealer.score :=
  dealerPhase_won_iff_gt22 ⟨20, [], 0⟩ ⟨22, [], 0⟩ [] _ rfl

/-- **C8.** If the dealer draw loop exits (rather than running out of
cards), the dealer's score at exit is at least the player's score: the
dealer draws whenever below the player's total and never stands
earlier. -/
theorem dealerMoves_ge_player (pscore : Nat) (d : Hand) (deck : List Card)
    (d' : Hand) (rest : List Card)
    (h : dealerMoves pscore d deck = some (d', rest)) :
    pscore ≤ d'.score := by
  induction deck generalizing d with
  | nil =>
    unfold dealerMoves at h
    by_cases hlt : d.score < pscore
    · simp [hlt] at h
    · simp only [hlt, if_neg, if_false, Option.some_inj, Prod.mk.injEq] at h
      obtain ⟨rfl, -⟩ := h
      omega
  | cons c deck ih =>
    unfold dealerMoves at h
    by_cases hlt : d.score < pscore
    · exact ih _ (by simpa [hlt] using h)
    · simp only [hlt, if_neg, if_false, Option.some_inj, Prod.mk.injEq] at h
      obtain ⟨rfl, -⟩ := h
      omega

/-- A concrete run for `dealerMoves_ge_player`: the dealer already has
19 against a player total of 18; the loop exits at once with 18 ≤ 19. -/
theorem dealerMoves_ge_player_witness : (18 : Nat) ≤ (Hand.score ⟨19, [], 0⟩) :=
  dealerMoves_ge_player 18 ⟨19, [], 0⟩ [] ⟨19, [], 0⟩ [] rfl

/-- **C6.** If the player's two-card score is 21 right after the deal,
the round ends at once with verdict `won`, the hands unchanged, and the
player-turn loop is never entered: the result is the same for every
answer stream `asks`, so no HIT/STAND decision is consulted. -/
theorem immediate_blackjack_wins (c0 c1 c2 c3 : Card) (deck : List Card)
    (asks : List Bool)
    (h : ((Hand.init.addCard c0).addCard c2).score = 21) :
    runRound (c0 :: c1 :: c2 :: c3 :: deck) asks =
      some ⟨some Verdict.won, (Hand.init.addCard c0).addCard c2,
            (Hand.init.addCard c1).addCard c3⟩ := by
  unfold runRound
  simp [h]

/-- A concrete run for `immediate_blackjack_wins`: player dealt
{Ace, King} (score 21) wins immediately, for any dealer cards. -/
theorem immediate_blackjack_wins_witness :
    runRound [⟨.ace, "S", "AS"⟩, ⟨.two, "S", "2S"⟩, ⟨.king, "H", "KH"⟩,
              ⟨.three, "S", "3S"⟩] [true, true] =
      some ⟨some Verdict.won,
            (Hand.init.addCard ⟨.ace, "S", "AS"⟩).addCard ⟨.king, "H", "KH"⟩,
            (Hand.init.addCard ⟨.two, "S", "2S"⟩).addCard ⟨.three, "S", "3S"⟩⟩ :=
  immediate_blackjack_wins ⟨.ace, "S", "AS"⟩ ⟨.two, "S", "2S"⟩
    ⟨.king, "H", "KH"⟩ ⟨.three, "S", "3S"⟩ [] [true, true] rfl

/-- Deck for the counterexample to claim C5: player is dealt 5 and 6,
dealer is dealt Ace and King (two-card score 21), and one 10 remains. -/
def deckC5 : List Card :=
  [⟨.five, "S", "5S"⟩, ⟨.ace, "S", "AS"⟩, ⟨.six, "S", "6S"⟩,
   ⟨.king, "S", "KS"⟩, ⟨.ten, "S", "TS"⟩]

/-- **C5, counterexample.** The claim says a dealer two-card score of
exactly 21 always yields verdict `lost` after the player's turn.  Here
the dealer's two-card score is 21, yet the player hits from 11 to
exactly 21 and the code reports `won`: the `score == 21` re-check runs
before the dealer-blackjack check. -/
theorem dealer21_not_always_lost :
    (runRound deckC5 [true]).map (fun r => (r.verdict, r.dealer.score)) =
        some (some Verdict.won, 21) ∧
      some Verdict.won ≠ some Verdict.lost := by
  constructor
  · rfl
  · simp

/-- **C5, amended.** After the player's turn, if the player's score is
22 or more, or the dealer's two-card score is exactly 21 while the
player's score is not exactly 21, the verdict is `lost` (whatever the
dealer would draw).  The exception is forced by the code: a player
score of exactly 21 is declared `won` before the dealer-blackjack
check. -/
theorem postPlayer_lost (p d : Hand) (deck : List Card) (r : RoundResult)
    (hrun : postPlayerPhase p d deck = some r)
    (hcond : 22 ≤ p.score ∨ (d.score = 21 ∧ p.score ≠ 21)) :
    r.verdict = some Verdict.lost := by
  unfold postPlayerPhase at hrun
  by_cases h21 : p.score = 21
  · rcases hcond with h | h
    · omega
    · exact absurd h21 h.2
  · have hor : p.score > 21 ∨ d.score = 21 := by
      rcases hcond with h | h
      · left; omega
      · right; exact h.1
    simp only [h21, if_neg, if_false, hor, if_pos, Option.some_inj] at hrun
    subst hrun
    rfl

/-- A concrete run for `postPlayer_lost`: the player busts at 22 and
the verdict is `lost`. -/
theorem postPlayer_lost_witness :
    (⟨some Verdict.lost, ⟨22, [], 0⟩, ⟨20, [], 0⟩⟩ : RoundResult).verdict
      = some Verdict.lost :=
  postPlayer_lost ⟨22, [], 0⟩ ⟨20, [], 0⟩ [] _ rfl (Or.inl (by decide))

end Blackjack

namespace Golf

/-- **C2.** When the stock is non-empty, `has_lost()` never evaluates
the no-moves condition: it falls through (Python `None`) and is falsy,
whether or not any column move is currently legal. -/
theorem hasLost_false_of_stock_nonempty (s : Solitaire) (h : s.stock ≠ []) :
    hasLost s = false ∧ hasLostPy s = none := by
  have hne : s.stock.isEmpty = false := by
    simpa [List.isEmpty_iff] using h
  constructor
  · simp [hasLost, hasLostPy, hne]
  · simp [hasLostPy, hne]

/-- A concrete run for `hasLost_false_of_stock_nonempty`: one card in
the stock, and the only exposed card (rank 2 against waste top 7) is
not movable; `has_lost` is still falsy. -/
theorem hasLost_false_of_stock_nonempty_witness :
    (hasLost exampleStateStuck = false ∧ hasLostPy exampleStateStuck = none) ∧
      canMove exampleStateStuck ⟨2, 0⟩ = false :=
  ⟨hasLost_false_of_stock_nonempty exampleStateStuck (by decide), by decide⟩

/-- **C9.** `deal_from_stock` from an empty stock is a no-op, and from
a non-empty stock it moves exactly the last stock card onto the top of
the waste, leaving the tableau unchanged. -/
theorem dealFromStock_spec (s : Solitaire) :
    (s.stock = [] → dealFromStock s = s) ∧
    (∀ c, s.stock.getLast? = some c →
      dealFromStock s =
        { tableau := s.tableau, waste := s.waste ++ [c],
          stock := s.stock.dropLast }) := by
  constructor
  · intro h
    simp [dealFromStock, h]
  · intro c h
    simp [dealFromStock, h]

/-- A concrete run for `dealFromStock_spec`: both the empty-stock no-op
and the non-empty-stock transfer, at explicit states. -/
theorem dealFromStock_spec_witness :
    dealFromStock ⟨[[⟨2, 0⟩]], [⟨7, 0⟩], []⟩ = ⟨[[⟨2, 0⟩]], [⟨7, 0⟩], []⟩ ∧
      dealFromStock ⟨[[⟨2, 0⟩]], [⟨7, 0⟩], [⟨5, 0⟩]⟩ =
        { tableau := [[⟨2, 0⟩]], waste := [⟨7, 0⟩] ++ [⟨5, 0⟩],
          stock := List.dropLast [⟨5, 0⟩] } :=
  ⟨(dealFromStock_spec _).1 rfl, (dealFromStock_spec _).2 ⟨5, 0⟩ rfl⟩

/-- **C4.** `can_move(card)` is true iff the card is the exposed (last)
card of some tableau column and its rank differs by exactly 1 from the
rank of the topmost waste card; the adjacency has no wraparound (Ace,
rank 1, is movable onto a 2 but not onto a King; King, rank 13, onto a
Queen but not onto an Ace), and on the spec's example — waste top of
rank 7, exposed cards of ranks 6, 8 and 2 — exactly the rank-6 and
rank-8 cards are movable. -/
theorem canMove_spec :
    (∀ (s : Solitaire) (c w : Card), s.waste.getLast? = some w →
      (canMove s c = true ↔
        (∃ col ∈ s.tableau, col.getLast? = some c) ∧
          ((w.rank : Int) - (c.rank : Int)).natAbs = 1)) ∧
    canMove exampleStateAK ⟨aceRank, 0⟩ = false ∧
    canMove exampleStateA2 ⟨aceRank, 0⟩ = true ∧
    canMove exampleStateKQ ⟨kingRank, 0⟩ = true ∧
    canMove exampleState7 ⟨6, 0⟩ = true ∧
    canMove exampleState7 ⟨8, 1⟩ = true ∧
    canMove exampleState7 ⟨2, 2⟩ = false := by
  refine ⟨?_, by decide, by decide, by decide, by decide, by decide, by decide⟩
  intro s c w hw
  simp only [canMove, List.any_eq_true]
  constructor
  · rintro ⟨col, hmem, hf⟩
    cases hlast : col.getLast? with
    | none => simp [hlast, hw] at hf
    | some x =>
      simp only [hlast, hw] at hf
      simp only [Bool.and_eq_true, beq_iff_eq] at hf
      obtain ⟨rfl, hadj⟩ := hf
      exact ⟨⟨col, hmem, hlast⟩, hadj⟩
  · rintro ⟨⟨col, hmem, hlast⟩, hadj⟩
    exact ⟨col, hmem, by simp [hlast, hw, hadj]⟩

/-- A concrete run for `canMove_spec`: the rank-6 card of the example
state is movable onto the rank-7 waste top, by the iff. -/
theorem canMove_spec_witness : canMove exampleState7 ⟨6, 0⟩ = true :=
  (canMove_spec.1 exampleState7 ⟨6, 0⟩ ⟨7, 0⟩ rfl).mpr
    ⟨⟨[⟨6, 0⟩], by decide, rfl⟩, by decide⟩

theorem dealColumns_snd (n cic : Nat) (deck : List Card) :
    (dealColumns n cic deck).2 = deck.drop (n * cic) := by
  induction n generalizing deck with
  | zero => simp [dealColumns]
  | succ n ih =>
    simp only [dealColumns, ih, List.drop_drop]
    congr 1
    rw [Nat.succ_mul, Nat.add_comm]

theorem dealColumns_sum (n cic : Nat) (deck : List Card)
    (h : n * cic ≤ deck.length) :
    ((dealColumns n cic deck).1.map List.length).sum = n * cic := by
  induction n generalizing deck with
  | zero => simp [dealColumns]
  | succ n ih =>
    rw [Nat.succ_mul] at h ⊢
    simp only [dealColumns, List.map_cons, List.sum_cons, List.length_take]
    have hc : cic ≤ deck.length := le_trans (Nat.le_add_left _ _) h
    rw [Nat.min_eq_left hc,
        ih (deck.drop cic)
          (by rw [List.length_drop]; exact Nat.le_sub_of_add_le h),
        Nat.add_comm]

theorem sumLen_set (t : List (List Card)) (i : Nat) (col nc : List Card)
    (h : t.get? i = some col) :
    ((t.set i nc).map List.length).sum + col.length
      = (t.map List.length).sum + nc.length := by
  induction t generalizing i with
  | nil => simp at h
  | cons hd tl ih =>
    cases i with
    | zero =>
      simp only [List.get?, Option.some_inj] at h
      subst h
      simp only [List.set, List.map_cons, List.sum_cons]
      omega
    | succ i =>
      simp only [List.get?] at h
      have := ih i h
      simp only [List.set, List.map_cons, List.sum_cons]
      omega

/-- **C7.** Card conservation: setup on a 52-card deck distributes
exactly 52 cards across tableau + waste + stock, and both `move_card`
(whenever it succeeds) and `deal_from_stock` leave the total card count
unchanged — no card is duplicated or orphaned. -/
theorem cards_conserved :
    (∀ deck : List Card, deck.length = 52 → totalCards (setup deck) = 52) ∧
    (∀ (s : Solitaire) (i : Nat) (t : Solitaire),
      moveCard s i = some t → totalCards t = totalCards s) ∧
    (∀ s : Solitaire, totalCards (dealFromStock s) = totalCards s) := by
  refine ⟨?_, ?_, ?_⟩
  · intro deck h
    have hsum := dealColumns_sum columns cardsInColumn deck (by rw [h]; decide)
    have hsnd := dealColumns_snd columns cardsInColumn deck
    simp only [totalCards, setup, hsum, hsnd, List.length_take, List.length_drop, h]
    decide
  · intro s i t hmv
    unfold moveCard at hmv
    cases hget : s.tableau.get? i with
    | none => rw [hget] at hmv; exact absurd hmv (by simp)
    | some column =>
      rw [hget] at hmv
      simp only [] at hmv
      cases hlast : column.getLast? with
      | none => rw [hlast] at hmv; exact absurd hmv (by simp)
      | some c =>
        rw [hlast] at hmv
        simp only [Option.some_inj] at hmv
        subst hmv
        have hs := sumLen_set s.tableau i column column.dropLast hget
        have hcol : column ≠ [] := by
          intro h0
          rw [h0] at hlast
          exact absurd hlast (by simp)
        have hlen : column.length ≠ 0 := by
          simpa [List.length_eq_zero] using hcol
        have hdl : column.dropLast.length = column.length - 1 :=
          List.length_dropLast column
        simp only [totalCards, List.length_append, List.length_singleton]
        omega
  · intro s
    unfold dealFromStock
    cases hlast : s.stock.getLast? with
    | none => rfl
    | some c =>
      have hst : s.stock ≠ [] := by
        intro h0
        rw [h0] at hlast
        exact absurd hlast (by simp)
      have hlen : s.stock.length ≠ 0 := by
        simpa [List.length_eq_zero] using hst
      simp only [totalCards, List.length_append, List.length_singleton,
        List.length_dropLast]
      omega

/-- A concrete run for `cards_conserved`: setup on an explicit 52-card
deck yields exactly 52 cards across the three containers. -/
theorem cards_conserved_witness : totalCards (setup deck52) = 52 :=
  cards_conserved.1 deck52 rfl

/-- **C10.** In every state reachable from setup the waste pile is
non-empty: setup puts exactly one card on it and the operations only
append to it (or leave it unchanged), so the `self.waste[-1]` access
inside `can_move` always finds a topmost card (`getLast?` succeeds). -/
theorem waste_never_empty (s : Solitaire) (h : Reachable s) :
    s.waste ≠ [] ∧ s.waste.getLast?.isSome = true := by
  have hne : s.waste ≠ [] := by
    induction h with
    | initial deck hlen =>
      simp only [setup, dealColumns_snd]
      intro hempty
      have hl := congrArg List.length hempty
      simp only [List.length_take, List.length_drop, List.length_nil, hlen] at hl
      revert hl
      decide
    | move s i t hs hmv ih =>
      unfold moveCard at hmv
      cases hget : s.tableau.get? i with
      | none => rw [hget] at hmv; exact absurd hmv (by simp)
      | some column =>
        rw [hget] at hmv
        simp only [] at hmv
        cases hlast : column.getLast? with
        | none => rw [hlast] at hmv; exact absurd hmv (by simp)
        | some c =>
          rw [hlast] at hmv
          simp only [Option.some_inj] at hmv
          subst hmv
          simp
    | deal s hs ih =>
      unfold dealFromStock
      cases hlast : s.stock.getLast? with
      | none => exact ih
      | some c => simp
  exact ⟨hne, List.getLast?_isSome.mpr hne⟩

/-- A concrete run for `waste_never_empty`: the state set up from the
explicit 52-card deck is reachable, and its waste pile is non-empty. -/
theorem waste_never_empty_witness :
    (setup deck52).waste ≠ [] ∧ (setup deck52).waste.getLast?.isSome = true :=
  waste_never_empty (setup deck52) (Reachable.initial deck52 rfl)

end Golf
